import Mathlib

/-!
# Verification of the niworkflows mask-refinement core

Shallow embedding of `refine_aseg` and `grow_mask` from
`niworkflows/interfaces/freesurfer.py`, together with the NumPy / scipy /
skimage primitives they rely on, and theorems settling the frozen claims.

Modelling conventions:
* A volume is a total function on integer coordinates `Pos = ℤ × ℤ × ℤ`
  together with a shape `(n₀, n₁, n₂)`; the routines only ever read a
  volume at in-range coordinates (checked by `inR` guards that mirror the
  boundary conventions of the underlying libraries), so out-of-range
  values are irrelevant garbage.
* Label volumes carry `ℤ` values, intensity volumes carry `ℚ` values
  (the Python code works on floating point; the spec and claims treat the
  arithmetic as exact real arithmetic, which `ℚ` realises for the
  rational inputs used here).
* `skimage.morphology.binary_dilation` treats out-of-volume voxels as
  background (0); `binary_erosion` passes `border_value=True`, treating
  out-of-volume voxels as foreground.  Closing is dilation then erosion,
  opening is erosion then dilation, both with the same ball.
* `scipy.ndimage.binary_fill_holes(x, selem)` floods the complement of
  `x` from outside the volume (`border_value=1`) with the ball as
  connectivity, and returns the complement of the flooded region.  The
  flood is a monotone iteration that adds at least one voxel per step
  until it reaches its least fixed point, so iterating it
  `n₀*n₁*n₂` times from the empty set reaches that fixed point.
-/

abbrev Pos := ℤ × ℤ × ℤ

abbrev Shape := ℕ × ℕ × ℕ

abbrev Mask := Pos → Bool

abbrev VolZ := Pos → ℤ

abbrev VolQ := Pos → ℚ

def addP (p o : Pos) : Pos := (p.1 + o.1, p.2.1 + o.2.1, p.2.2 + o.2.2)

def negP (o : Pos) : Pos := (-o.1, -o.2.1, -o.2.2)

/-- In-range test: `0 ≤ pᵢ < nᵢ` on each axis. -/
def inR (s : Shape) (p : Pos) : Bool :=
  decide (0 ≤ p.1 ∧ p.1 < (s.1 : ℤ) ∧ 0 ≤ p.2.1 ∧ p.2.1 < (s.2.1 : ℤ) ∧
    0 ≤ p.2.2 ∧ p.2.2 < (s.2.2 : ℤ))

/-- Offsets of the cube `[-r, r]³` in C order. -/
def cubeOffsets (r : ℕ) : List Pos :=
  (List.range (2 * r + 1)).flatMap fun i =>
    (List.range (2 * r + 1)).flatMap fun j =>
      (List.range (2 * r + 1)).map fun (k : ℕ) =>
        (((i : ℕ) : ℤ) - r, ((j : ℕ) : ℤ) - r, ((k : ℕ) : ℤ) - r)

/-- `skimage.morphology.ball(r)`: offsets of the cube whose squared
Euclidean norm is at most `r²`. -/
def ballOffsets (r : ℕ) : List Pos :=
  (cubeOffsets r).filter fun o =>
    decide (o.1 ^ 2 + o.2.1 ^ 2 + o.2.2 ^ 2 ≤ (r : ℤ) ^ 2)

/-- All in-range positions of a volume, in C (row-major) order — the order
`np.argwhere` reports indices in. -/
def allPositions (s : Shape) : List Pos :=
  (List.range s.1).flatMap fun i =>
    (List.range s.2.1).flatMap fun j =>
      (List.range s.2.2).map fun (k : ℕ) =>
        (((i : ℕ) : ℤ), ((j : ℕ) : ℤ), ((k : ℕ) : ℤ))

/-- `skimage.morphology.binary_dilation` with a ball: out-of-volume voxels
count as background. -/
def dilateM (s : Shape) (r : ℕ) (m : Mask) : Mask := fun p =>
  (ballOffsets r).any fun o => inR s (addP p o) && m (addP p o)

/-- `skimage.morphology.binary_erosion` with a ball: out-of-volume voxels
count as foreground (`border_value=True`). -/
def erodeM (s : Shape) (r : ℕ) (m : Mask) : Mask := fun p =>
  (ballOffsets r).all fun o => !inR s (addP p o) || m (addP p o)

/-- `skimage.morphology.binary_closing`: dilation followed by erosion. -/
def closingM (s : Shape) (r : ℕ) (m : Mask) : Mask :=
  erodeM s r (dilateM s r m)

/-- `skimage.morphology.binary_opening`: erosion followed by dilation. -/
def openingM (s : Shape) (r : ℕ) (m : Mask) : Mask :=
  dilateM s r (erodeM s r m)

/-- One step of the `binary_fill_holes` flood: a voxel joins the flooded
set when it lies in the complement of the mask and the ball reaches from
it either outside the volume (`border_value=1`) or a voxel already
flooded. -/
def floodStep (s : Shape) (r : ℕ) (m : Mask) (cur : List Pos) : List Pos :=
  (allPositions s).filter fun p =>
    !m p && ((ballOffsets r).any fun o =>
      !inR s (addP p o) || decide (addP p o ∈ cur))

/-- The flooded background of `scipy.ndimage.binary_fill_holes`: iterating
the monotone flood step `n₀*n₁*n₂` times from the empty set reaches the
least fixed point (each earlier step adds at least one of the at most
`n₀*n₁*n₂` voxels). -/
def floodList (s : Shape) (r : ℕ) (m : Mask) : List Pos :=
  (floodStep s r m)^[s.1 * s.2.1 * s.2.2] []

/-- `scipy.ndimage.binary_fill_holes(m, selem)`: complement of the
background region flooded from the border. -/
def fillHoles (s : Shape) (r : ℕ) (m : Mask) : Mask := fun p =>
  !(decide (p ∈ floodList s r m))

/-- `bmask = aseg.copy(); bmask[bmask > 0] = 1` -/
def bmaskStep (v : VolZ) : VolZ := fun p => if 0 < v p then 1 else v p

/-- `bmask.astype(np.uint8)`: the C cast to `uint8` reduces each value
modulo 256 into `[0, 256)`. -/
def bmaskVal (v : VolZ) : VolZ := fun p => (bmaskStep v p).emod 256

/-- The binarized volume as the boolean mask the binary morphology
operations see (any nonzero `uint8` value is foreground). -/
def binMask (v : VolZ) : Mask := fun p => bmaskVal v p != 0

/-- `refine_aseg(aseg, ball_size)`: binarize, close, fill holes. -/
def refineAseg (s : Shape) (r : ℕ) (v : VolZ) : Mask :=
  fillHoles s r (closingM s r (binMask v))

/-- Resolution of one Python slice bound against an axis of length `n`
(step 1): a negative bound is first shifted by `n`, then the result is
clamped into `[0, n]`. -/
def resolveIdx (n : ℕ) (i : ℤ) : ℕ :=
  min ((if i < 0 then i + n else i).toNat) n

/-- The indices selected by the Python slice `a[start:stop]` on an axis of
length `n`: `resolveIdx start`, …, `resolveIdx stop - 1`. -/
def sliceIdxs (n : ℕ) (start stop : ℤ) : List ℕ :=
  List.range' (resolveIdx n start) (resolveIdx n stop - resolveIdx n start)

/-- Axis indices of the window `gm[c - ww : c + ww]` read by `grow_mask`
around coordinate `c`. -/
def windowAxis (n : ℕ) (c : ℤ) (ww : ℕ) : List ℕ :=
  sliceIdxs n (c - ww) (c + ww)

/-- The values of the cubic window
`gm[p₀-ww:p₀+ww, p₁-ww:p₁+ww, p₂-ww:p₂+ww]`, in C order. -/
def windowVals (s : Shape) (g : VolQ) (p : Pos) (ww : ℕ) : List ℚ :=
  (windowAxis s.1 p.1 ww).flatMap fun a =>
    (windowAxis s.2.1 p.2.1 ww).flatMap fun b =>
      (windowAxis s.2.2 p.2.2 ww).map fun c =>
        g ((a : ℤ), (b : ℤ), (c : ℤ))

/-- The positive values of the window (`window[window > 0]`). -/
def windowPos (s : Shape) (g : VolQ) (p : Pos) (ww : ℕ) : List ℚ :=
  (windowVals s g p ww).filter fun q => decide (0 < q)

/-- `np.mean` of a list of values. -/
def qmean (l : List ℚ) : ℚ := l.sum / l.length

/-- `np.std … ** 2`: the population variance (mean squared deviation). -/
def qvar (l : List ℚ) : ℚ :=
  ((l.map fun x => (x - qmean l) ^ 2).sum) / l.length

/-- Square of the `1e-5` floor on `sigma`. -/
def varFloor : ℚ := 1 / 10 ^ 10

/-- The inclusion test `abs(anat[p] - mu) / sigma < zval` with
`sigma = max(std, 1e-5)`, expressed by squaring both sides of the
inequality of nonnegative reals: `zstat < zval` holds exactly when
`zval > 0` and `(anat[p] - mu)² < zval² * max(var, 1e-10)` (squaring is
strictly monotone on nonnegatives and
`max(sqrt var, 1e-5)² = max(var, 1e-10)`). -/
def ztestB (a mu var zval : ℚ) : Bool :=
  decide (0 < zval) && decide ((a - mu) ^ 2 < zval ^ 2 * max var varFloor)

/-- `aseg[aseg == 42] = 3`: the in-place hemisphere collapse. -/
def collapse (v : VolZ) : VolZ := fun p => if v p = 42 then 3 else v p

/-- `gm = anat.copy(); gm[aseg != 3] = 0` (applied after the collapse). -/
def gmVol (anat : VolQ) (aseg2 : VolZ) : VolQ := fun p =>
  if aseg2 p = 3 then anat p else 0

def b2i (b : Bool) : ℤ := if b then 1 else 0

/-- Value of `sim.binary_dilation(refined, selem) - refined` at a voxel:
the boolean dilation is promoted to `uint8`, and the `uint8` subtraction
wraps modulo 256. -/
def shellVal (s : Shape) (bw : ℕ) (m : Mask) (p : Pos) : ℤ :=
  (b2i (dilateM s bw m p) - b2i (m p)).emod 256

/-- `indices = np.argwhere(newrefmask > 0)`: in-range voxels (in C order)
where the dilated-minus-refined volume is positive. -/
def shellIndices (s : Shape) (bw : ℕ) (m : Mask) : List Pos :=
  (allPositions s).filter fun p => decide (0 < shellVal s bw m p)

/-- The body of the per-voxel loop of `grow_mask`: on an ATROPOS
gray-matter match (`ants_segs[p] == 2`) the voxel is set and the
statistical test skipped; otherwise, when the window has a positive
value, `refined[p] = int(zstat < zval)` is written. -/
def growStep (s : Shape) (ants : VolZ) (g anat : VolQ) (ww : ℕ) (zval : ℚ)
    (r : Mask) (p : Pos) : Mask :=
  if ants p = 2 then Function.update r p true
  else
    let pos := windowPos s g p ww
    if pos.isEmpty then r
    else Function.update r p (ztestB (anat p) (qmean pos) (qvar pos) zval)

/-- Whether the loop body writes to voxel `p` at all. -/
def growWrites (s : Shape) (ants : VolZ) (g : VolQ) (ww : ℕ) (p : Pos) : Bool :=
  decide (ants p = 2) || !(windowPos s g p ww).isEmpty

/-- The value the loop body writes at voxel `p` when it writes. -/
def growVal (s : Shape) (ants : VolZ) (g anat : VolQ) (ww : ℕ) (zval : ℚ)
    (p : Pos) : Bool :=
  if ants p = 2 then true
  else ztestB (anat p) (qmean (windowPos s g p ww))
    (qvar (windowPos s g p ww)) zval

/-- The candidate boundary shell of `grow_mask` for a given `aseg`:
`np.argwhere(sim.binary_dilation(refine_aseg(aseg), ball(bw))
- refine_aseg(aseg) > 0)` computed after the hemisphere collapse
(`refine_aseg` is called with its default `ball_size=4`). -/
def growShell (s : Shape) (aseg : VolZ) (bw : ℕ) : List Pos :=
  shellIndices s bw (refineAseg s 4 (collapse aseg))

/-- The caller-visible result of a `grow_mask` call: the returned mask
plus the three argument arrays as the caller sees them after the call
(the code mutates `aseg` in place, copies `anat`, and only reads
`ants_segs`). -/
structure GrowOut where
  mask : Mask
  anatOut : VolQ
  asegOut : VolZ
  antsOut : Option VolZ

/-- `grow_mask(anat, aseg, ants_segs, ww, zval, bw)`. -/
def growMask (s : Shape) (anat : VolQ) (aseg : VolZ) (oants : Option VolZ)
    (ww : ℕ) (zval : ℚ) (bw : ℕ) : GrowOut :=
  let ants : VolZ := oants.getD fun _ => 0
  let aseg2 := collapse aseg
  let g := gmVol anat aseg2
  let refined := refineAseg s 4 aseg2
  let grown := (shellIndices s bw refined).foldl
    (growStep s ants g anat ww zval) refined
  ⟨openingM s bw grown, anat, aseg2, oants⟩

/-- Modelled from the spec: the variant of `grow_mask` "with the
auxiliary-segmentation branch removed" (claim C6) — every inclusion
decision is made by the windowed z-score test alone. -/
def growStepNB (s : Shape) (g anat : VolQ) (ww : ℕ) (zval : ℚ)
    (r : Mask) (p : Pos) : Mask :=
  let pos := windowPos s g p ww
  if pos.isEmpty then r
  else Function.update r p (ztestB (anat p) (qmean pos) (qvar pos) zval)

/-- Modelled from the spec: `grow_mask` with the short-circuit branch
removed (no auxiliary segmentation input at all). -/
def growMaskVar (s : Shape) (anat : VolQ) (aseg : VolZ)
    (ww : ℕ) (zval : ℚ) (bw : ℕ) : Mask :=
  let aseg2 := collapse aseg
  let g := gmVol anat aseg2
  let refined := refineAseg s 4 aseg2
  let grown := (shellIndices s bw refined).foldl
    (growStepNB s g anat ww zval) refined
  openingM s bw grown

/-- The squared z-statistic of a candidate voxel, normalised by the
floored variance (0 when the window has no positive value). -/
def scoreQ (s : Shape) (g anat : VolQ) (ww : ℕ) (p : Pos) : ℚ :=
  let pos := windowPos s g p ww
  if pos.isEmpty then 0
  else (anat p - qmean pos) ^ 2 / max (qvar pos) varFloor

/-- A bound (at least 1) on the squared z-statistics of all candidate
voxels of a `grow_mask` call. -/
def zThreshold (s : Shape) (anat : VolQ) (aseg : VolZ) (ww bw : ℕ) : ℚ :=
  (growShell s aseg bw).foldr
    (fun p a => max a (scoreQ s (gmVol anat (collapse aseg)) anat ww p)) 1

/-- Pointwise equality of two masks on all in-range voxels, phrased over
bounded natural indices so that it is decidable for concrete shapes. -/
def maskEqOn (s : Shape) (m₁ m₂ : Mask) : Prop :=
  ∀ i < s.1, ∀ j < s.2.1, ∀ k < s.2.2,
    m₁ ((i : ℤ), (j : ℤ), (k : ℤ)) = m₂ ((i : ℤ), (j : ℤ), (k : ℤ))

/-- All in-range voxels of the volume carry value 0 or 1. -/
def binaryOn (s : Shape) (v : VolZ) : Prop :=
  ∀ i < s.1, ∀ j < s.2.1, ∀ k < s.2.2,
    v ((i : ℤ), (j : ℤ), (k : ℤ)) = 0 ∨ v ((i : ℤ), (j : ℤ), (k : ℤ)) = 1

instance (s : Shape) (m₁ m₂ : Mask) : Decidable (maskEqOn s m₁ m₂) := by
  unfold maskEqOn
  infer_instance

instance (s : Shape) (v : VolZ) : Decidable (binaryOn s v) := by
  unfold binaryOn
  infer_instance

/-- A 6×1×1 test volume shape. -/
def shp611 : Shape := (6, 1, 1)

/-- A label volume with a single non-gray-matter label 1 at the origin. -/
def asegLbl1 : VolZ := fun p => if p = (0, 0, 0) then 1 else 0

/-- A label volume with a single gray-matter label 3 at the origin. -/
def asegGM : VolZ := fun p => if p = (0, 0, 0) then 3 else 0

/-- An anatomical volume with intensity 5 on the first two voxels of the
first axis and 0 elsewhere. -/
def anatC7 : VolQ := fun p => if p.1 ≤ 1 then 5 else 0

/-- A label volume that is 42 everywhere. -/
def aseg42 : VolZ := fun _ => 42

theorem addP_zero (p : Pos) : addP p (0, 0, 0) = p := by
  simp [addP]

theorem addP_neg_cancel (p o : Pos) : addP (addP p o) (negP o) = p := by
  simp [addP, negP]

theorem mem_cubeOffsets {r : ℕ} {o : Pos} :
    o ∈ cubeOffsets r ↔
      ∃ i : ℕ, i < 2 * r + 1 ∧ ∃ j : ℕ, j < 2 * r + 1 ∧ ∃ k : ℕ,
        k < 2 * r + 1 ∧ o = ((i : ℤ) - r, (j : ℤ) - r, (k : ℤ) - r) := by
  unfold cubeOffsets
  constructor
  · intro h
    obtain ⟨i, hi, h⟩ := List.mem_flatMap.mp h
    obtain ⟨j, hj, h⟩ := List.mem_flatMap.mp h
    obtain ⟨k, hk, h⟩ := List.mem_map.mp h
    exact ⟨i, List.mem_range.mp hi, j, List.mem_range.mp hj,
      k, List.mem_range.mp hk, h.symm⟩
  · rintro ⟨i, hi, j, hj, k, hk, rfl⟩
    refine List.mem_flatMap.mpr ⟨i, List.mem_range.mpr hi, ?_⟩
    refine List.mem_flatMap.mpr ⟨j, List.mem_range.mpr hj, ?_⟩
    exact List.mem_map.mpr ⟨k, List.mem_range.mpr hk, rfl⟩

theorem origin_mem_ball (r : ℕ) : ((0, 0, 0) : Pos) ∈ ballOffsets r := by
  unfold ballOffsets
  rw [List.mem_filter]
  constructor
  · rw [mem_cubeOffsets]
    refine ⟨r, by omega, r, by omega, r, by omega, ?_⟩
    norm_num
  · rw [decide_eq_true_eq]
    norm_num

theorem neg_mem_ball {r : ℕ} {o : Pos} (h : o ∈ ballOffsets r) :
    negP o ∈ ballOffsets r := by
  unfold ballOffsets at h ⊢
  rw [List.mem_filter] at h ⊢
  obtain ⟨hc, hb⟩ := h
  obtain ⟨i, hi, j, hj, k, hk, rfl⟩ := mem_cubeOffsets.mp hc
  constructor
  · rw [mem_cubeOffsets]
    refine ⟨2 * r - i, by omega, 2 * r - j, by omega, 2 * r - k, by omega, ?_⟩
    simp only [negP, Prod.mk.injEq]
    refine ⟨?_, ?_, ?_⟩ <;> omega
  · rw [decide_eq_true_eq] at hb ⊢
    simp only [negP]
    calc (-((i : ℤ) - r)) ^ 2 + (-((j : ℤ) - r)) ^ 2 + (-((k : ℤ) - r)) ^ 2
        = ((i : ℤ) - r) ^ 2 + ((j : ℤ) - r) ^ 2 + ((k : ℤ) - r) ^ 2 := by ring
      _ ≤ (r : ℤ) ^ 2 := hb

theorem mem_allPositions_iff {s : Shape} {p : Pos} :
    p ∈ allPositions s ↔
      ∃ i : ℕ, i < s.1 ∧ ∃ j : ℕ, j < s.2.1 ∧ ∃ k : ℕ,
        k < s.2.2 ∧ p = ((i : ℤ), (j : ℤ), (k : ℤ)) := by
  unfold allPositions
  constructor
  · intro h
    obtain ⟨i, hi, h⟩ := List.mem_flatMap.mp h
    obtain ⟨j, hj, h⟩ := List.mem_flatMap.mp h
    obtain ⟨k, hk, h⟩ := List.mem_map.mp h
    exact ⟨i, List.mem_range.mp hi, j, List.mem_range.mp hj,
      k, List.mem_range.mp hk, h.symm⟩
  · rintro ⟨i, hi, j, hj, k, hk, rfl⟩
    refine List.mem_flatMap.mpr ⟨i, List.mem_range.mpr hi, ?_⟩
    refine List.mem_flatMap.mpr ⟨j, List.mem_range.mpr hj, ?_⟩
    exact List.mem_map.mpr ⟨k, List.mem_range.mpr hk, rfl⟩

theorem mem_allPositions {s : Shape} {p : Pos} (h : p ∈ allPositions s) :
    inR s p = true := by
  obtain ⟨i, hi, j, hj, k, hk, rfl⟩ := mem_allPositions_iff.mp h
  rw [inR, decide_eq_true_eq]
  refine ⟨?_, ?_, ?_, ?_, ?_, ?_⟩ <;> simp <;> omega

theorem dilate_extensive {s : Shape} {r : ℕ} {m : Mask} {p : Pos}
    (hp : inR s p = true) (hm : m p = true) : dilateM s r m p = true := by
  unfold dilateM
  rw [List.any_eq_true]
  exact ⟨(0, 0, 0), origin_mem_ball r, by rw [addP_zero]; simp [hp, hm]⟩

theorem closing_extensive {s : Shape} {r : ℕ} {m : Mask} {p : Pos}
    (hp : inR s p = true) (hm : m p = true) : closingM s r m p = true := by
  unfold closingM erodeM
  rw [List.all_eq_true]
  intro o ho
  rcases hq : inR s (addP p o) with _ | _
  · simp [hq]
  · suffices h : dilateM s r m (addP p o) = true by simp [h]
    unfold dilateM
    rw [List.any_eq_true]
    refine ⟨negP o, neg_mem_ball ho, ?_⟩
    rw [addP_neg_cancel]
    simp [hp, hm]

theorem flood_not_mask {s : Shape} {r : ℕ} {m : Mask} {q : Pos}
    (h : q ∈ floodList s r m) : m q = false := by
  unfold floodList at h
  rcases hn : s.1 * s.2.1 * s.2.2 with _ | n
  · rw [hn] at h; simp at h
  · rw [hn, Function.iterate_succ_apply'] at h
    unfold floodStep at h
    rw [List.mem_filter] at h
    have := h.2
    simp only [Bool.and_eq_true, Bool.not_eq_true'] at this
    exact this.1

theorem fill_extensive {s : Shape} {r : ℕ} {m : Mask} {p : Pos}
    (hm : m p = true) : fillHoles s r m p = true := by
  unfold fillHoles
  rcases h : decide (p ∈ floodList s r m) with _ | _
  · rfl
  · rw [decide_eq_true_eq] at h
    rw [flood_not_mask h] at hm
    cases hm

theorem binMask_pos {v : VolZ} {p : Pos} (h : 0 < v p) :
    binMask v p = true := by
  simp only [binMask, bmaskVal, bmaskStep, if_pos h]
  decide

theorem listAny_congr {α : Type} {l : List α} {f g : α → Bool}
    (h : ∀ a ∈ l, f a = g a) : l.any f = l.any g := by
  induction l with
  | nil => rfl
  | cons a l ih =>
    simp only [List.any_cons]
    rw [h a (List.mem_cons_self a l), ih fun b hb => h b (List.mem_cons_of_mem a hb)]

theorem listAll_congr {α : Type} {l : List α} {f g : α → Bool}
    (h : ∀ a ∈ l, f a = g a) : l.all f = l.all g := by
  induction l with
  | nil => rfl
  | cons a l ih =>
    simp only [List.all_cons]
    rw [h a (List.mem_cons_self a l), ih fun b hb => h b (List.mem_cons_of_mem a hb)]

theorem dilateM_congr {s : Shape} {r : ℕ} {m m' : Mask}
    (h : ∀ q, inR s q = true → m q = m' q) : dilateM s r m = dilateM s r m' := by
  funext p
  unfold dilateM
  refine listAny_congr fun o _ => ?_
  rcases hq : inR s (addP p o) with _ | _
  · simp
  · simp [h _ hq]

theorem erodeM_congr {s : Shape} {r : ℕ} {m m' : Mask}
    (h : ∀ q, inR s q = true → m q = m' q) : erodeM s r m = erodeM s r m' := by
  funext p
  unfold erodeM
  refine listAll_congr fun o _ => ?_
  rcases hq : inR s (addP p o) with _ | _
  · simp
  · simp [h _ hq]

theorem closingM_congr {s : Shape} {r : ℕ} {m m' : Mask}
    (h : ∀ q, inR s q = true → m q = m' q) : closingM s r m = closingM s r m' := by
  unfold closingM
  rw [dilateM_congr h]

theorem openingM_congr {s : Shape} {r : ℕ} {m m' : Mask}
    (h : ∀ q, inR s q = true → m q = m' q) : openingM s r m = openingM s r m' := by
  unfold openingM
  rw [erodeM_congr h]

theorem floodStep_congr {s : Shape} {r : ℕ} {m m' : Mask}
    (h : ∀ q, inR s q = true → m q = m' q) : floodStep s r m = floodStep s r m' := by
  funext cur
  unfold floodStep
  refine List.filter_congr fun p hp => ?_
  rw [h p (mem_allPositions hp)]

theorem fillHoles_congr {s : Shape} {r : ℕ} {m m' : Mask}
    (h : ∀ q, inR s q = true → m q = m' q) : fillHoles s r m = fillHoles s r m' := by
  unfold fillHoles floodList
  rw [floodStep_congr h]

theorem binMask_collapse (v : VolZ) : binMask (collapse v) = binMask v := by
  funext p
  by_cases h : v p = 42
  · simp [binMask, bmaskVal, bmaskStep, collapse, h]
  · simp [binMask, bmaskVal, bmaskStep, collapse, h]

theorem refineAseg_collapse (s : Shape) (r : ℕ) (v : VolZ) :
    refineAseg s r (collapse v) = refineAseg s r v := by
  unfold refineAseg
  rw [binMask_collapse]

theorem maskEqOn_iff {s : Shape} {m₁ m₂ : Mask} :
    maskEqOn s m₁ m₂ ↔ ∀ p : Pos, inR s p = true → m₁ p = m₂ p := by
  constructor
  · intro h p hp
    rw [inR, decide_eq_true_eq] at hp
    obtain ⟨h1, h2, h3, h4, h5, h6⟩ := hp
    have hx := h p.1.toNat (by omega) p.2.1.toNat (by omega) p.2.2.toNat (by omega)
    rw [Int.toNat_of_nonneg h1, Int.toNat_of_nonneg h3, Int.toNat_of_nonneg h5] at hx
    simpa using hx
  · intro h i hi j hj k hk
    refine h _ ?_
    rw [inR, decide_eq_true_eq]
    refine ⟨?_, ?_, ?_, ?_, ?_, ?_⟩ <;> simp <;> omega

theorem growStep_eq (s : Shape) (ants : VolZ) (g anat : VolQ) (ww : ℕ)
    (zval : ℚ) (r : Mask) (p : Pos) :
    growStep s ants g anat ww zval r p =
      if growWrites s ants g ww p = true
      then Function.update r p (growVal s ants g anat ww zval p) else r := by
  unfold growStep growWrites growVal
  by_cases h : ants p = 2
  · simp [h]
  · rcases he : (windowPos s g p ww).isEmpty with _ | _
    · simp [h, he]
    · simp [h, he]

theorem growLoop_at (s : Shape) (ants : VolZ) (g anat : VolQ) (ww : ℕ)
    (zval : ℚ) (l : List Pos) (r : Mask) (x : Pos) :
    l.foldl (growStep s ants g anat ww zval) r x =
      if x ∈ l ∧ growWrites s ants g ww x = true
      then growVal s ants g anat ww zval x else r x := by
  induction l generalizing r with
  | nil => simp
  | cons a l ih =>
    rw [List.foldl_cons, ih]
    by_cases hx : x ∈ l ∧ growWrites s ants g ww x = true
    · rw [if_pos hx, if_pos ⟨List.mem_cons_of_mem a hx.1, hx.2⟩]
    · rw [if_neg hx, growStep_eq]
      by_cases hw : growWrites s ants g ww a = true
      · rw [if_pos hw]
        by_cases hxa : x = a
        · subst hxa
          rw [Function.update_same]
          rw [if_pos ⟨List.mem_cons_self x l, hw⟩]
        · rw [Function.update_noteq hxa]
          rw [if_neg fun hc => hx ⟨(List.mem_cons.mp hc.1).resolve_left hxa, hc.2⟩]
      · rw [if_neg hw]
        refine (if_neg fun hc => ?_).symm
        rcases List.mem_cons.mp hc.1 with h1 | h1
        · exact hw (h1 ▸ hc.2)
        · exact hx ⟨h1, hc.2⟩

theorem foldr_max_init (f : Pos → ℚ) (b : ℚ) (l : List Pos) :
    b ≤ l.foldr (fun p a => max a (f p)) b := by
  induction l with
  | nil => simp
  | cons a l ih => exact le_trans ih (le_max_left _ _)

theorem foldr_max_mem (f : Pos → ℚ) (b : ℚ) {l : List Pos} {x : Pos}
    (h : x ∈ l) : f x ≤ l.foldr (fun p a => max a (f p)) b := by
  induction l with
  | nil => cases h
  | cons a l ih =>
    rcases List.mem_cons.mp h with h1 | h1
    · subst h1; exact le_max_right _ _
    · exact le_trans (ih h1) (le_max_left _ _)

/-- Claim C1 (amended): `grow_mask` leaves the caller's `anat` and
`ants_segs` unchanged and returns a new mask, but it mutates `aseg` in
place: a voxel keeps its label after the call exactly when that label was
not 42 (voxels labeled 42 are overwritten with 3, visibly to the
caller). -/
theorem grow_mask_frame (s : Shape) (anat : VolQ) (aseg : VolZ)
    (oants : Option VolZ) (ww : ℕ) (zval : ℚ) (bw : ℕ) :
    (growMask s anat aseg oants ww zval bw).anatOut = anat ∧
    (growMask s anat aseg oants ww zval bw).antsOut = oants ∧
    ∀ p : Pos,
      ((growMask s anat aseg oants ww zval bw).asegOut p = aseg p ↔
        aseg p ≠ 42) := by
  refine ⟨rfl, rfl, fun p => ?_⟩
  show collapse aseg p = aseg p ↔ aseg p ≠ 42
  unfold collapse
  by_cases h : aseg p = 42
  · simp [h]
  · simp [h]

/-- Claim C1 counterexample: on a volume whose `aseg` is 42 everywhere,
the caller's `aseg` after the `grow_mask` call holds 3 at the origin
where it held 42 before — the hemisphere collapse is visible to the
caller, contradicting the claimed absence of side effects. -/
theorem grow_mask_mutates_aseg :
    (growMask (1, 1, 1) (fun _ => 0) aseg42 none 7 2 4).asegOut (0, 0, 0) = 3 ∧
    aseg42 (0, 0, 0) = 42 ∧ (3 : ℤ) ≠ 42 :=
  ⟨rfl, rfl, by decide⟩

/-- Claim C2 (amended): the binarization step of `refine_aseg` maps a
positive label to 1 and label 0 to 0, but a negative label is cast to
`uint8` (reduced modulo 256) and may stay nonzero rather than becoming
0. -/
theorem refine_aseg_binarize (v : VolZ) (p : Pos) :
    (0 < v p → bmaskVal v p = 1) ∧ (v p = 0 → bmaskVal v p = 0) ∧
    (v p < 0 → bmaskVal v p = (v p).emod 256) := by
  unfold bmaskVal bmaskStep
  refine ⟨fun h => ?_, fun h => ?_, fun h => ?_⟩
  · rw [if_pos h]; rfl
  · simp [h]
    decide
  · rw [if_neg (by omega)]

/-- Claim C2 counterexample: a voxel labeled −1 binarizes to 255, not 0,
and is treated as foreground by the morphological operations. -/
theorem refine_aseg_binarize_cx :
    bmaskVal (fun _ => (-1 : ℤ)) (0, 0, 0) = 255 ∧
    bmaskVal (fun _ => (-1 : ℤ)) (0, 0, 0) ≠ 0 ∧
    binMask (fun _ => (-1 : ℤ)) (0, 0, 0) = true := by
  decide

/-- Witness for `refine_aseg_binarize` at the labels 5, 0 and −7. -/
theorem refine_aseg_binarize_w :
    bmaskVal (fun _ => (5 : ℤ)) (0, 0, 0) = 1 ∧
    bmaskVal (fun _ => (0 : ℤ)) (0, 0, 0) = 0 ∧
    bmaskVal (fun _ => (-7 : ℤ)) (0, 0, 0) = (-7 : ℤ).emod 256 :=
  ⟨(refine_aseg_binarize (fun _ => 5) (0, 0, 0)).1 (by decide),
   (refine_aseg_binarize (fun _ => 0) (0, 0, 0)).2.1 (by decide),
   (refine_aseg_binarize (fun _ => -7) (0, 0, 0)).2.2 (by decide)⟩

/-- Claim C3: `refine_aseg` is voxel-wise monotone above the binarized
input — every in-range voxel with a positive label (1 in the naive
binarized mask) is set in the output mask, including voxels on the
volume border (closing is extensive because erosion treats the outside
as foreground, and hole filling only ever adds voxels). -/
theorem refine_aseg_superset (s : Shape) (r : ℕ) (v : VolZ) (p : Pos)
    (hp : inR s p = true) (hv : 0 < v p) : refineAseg s r v p = true := by
  unfold refineAseg
  exact fill_extensive (closing_extensive hp (binMask_pos hv))

/-- Witness for `refine_aseg_superset`: a border voxel of a 2×1×1 volume
with label 1. -/
theorem refine_aseg_superset_w :
    inR (2, 1, 1) (0, 0, 0) = true ∧ (0 : ℤ) < 1 ∧
    refineAseg (2, 1, 1) 1 (fun _ => 1) (0, 0, 0) = true :=
  ⟨by decide, by decide,
   refine_aseg_superset (2, 1, 1) 1 (fun _ => 1) (0, 0, 0)
     (by decide) (by decide)⟩

/-- Claim C10: the shell computation `binary_dilation(refined) - refined`
never underflows — at every in-range voxel the `uint8` difference is 1
when the voxel is in the dilation but not in the base mask, 0 otherwise
(the ball contains the origin, so the dilation is a superset of the base
mask and no shell voxel lies inside it). -/
theorem shell_no_underflow (s : Shape) (aseg : VolZ) (bw : ℕ) (p : Pos)
    (hp : inR s p = true) :
    shellVal s bw (refineAseg s 4 (collapse aseg)) p =
      if dilateM s bw (refineAseg s 4 (collapse aseg)) p = true ∧
          refineAseg s 4 (collapse aseg) p = false
      then 1 else 0 := by
  unfold shellVal b2i
  rcases h1 : refineAseg s 4 (collapse aseg) p with _ | _
  · rcases h2 : dilateM s bw (refineAseg s 4 (collapse aseg)) p with _ | _
    · decide
    · decide
  · have h2 : dilateM s bw (refineAseg s 4 (collapse aseg)) p = true :=
      dilate_extensive hp h1
    rw [h2]
    decide

/-- Witness for `shell_no_underflow` on a 1×1×1 all-gray-matter volume. -/
theorem shell_no_underflow_w :
    shellVal (1, 1, 1) 1 (refineAseg (1, 1, 1) 4 (collapse fun _ => 3)) (0, 0, 0) =
      if dilateM (1, 1, 1) 1 (refineAseg (1, 1, 1) 4 (collapse fun _ => 3))
            (0, 0, 0) = true ∧
          refineAseg (1, 1, 1) 4 (collapse fun _ => 3) (0, 0, 0) = false
      then 1 else 0 :=
  shell_no_underflow (1, 1, 1) (fun _ => 3) 1 (0, 0, 0) (by decide)

theorem mem_shellIndices_inR {s : Shape} {bw : ℕ} {m : Mask} {p : Pos}
    (h : p ∈ shellIndices s bw m) : inR s p = true :=
  mem_allPositions (List.mem_of_mem_filter h)

theorem foldl_growStep_no_ants (s : Shape) (ants : VolZ) (g anat : VolQ)
    (ww : ℕ) (zval : ℚ) (l : List Pos)
    (h : ∀ p ∈ l, ants p ≠ 2) (r : Mask) :
    l.foldl (growStep s ants g anat ww zval) r =
      l.foldl (growStepNB s g anat ww zval) r := by
  induction l generalizing r with
  | nil => rfl
  | cons a l ih =>
    rw [List.foldl_cons, List.foldl_cons,
      ih (fun p hp => h p (List.mem_cons_of_mem a hp))]
    congr 1
    unfold growStep growStepNB
    rw [if_neg (h a (List.mem_cons_self a l))]

/-- Claim C6: when `ants_segs` is all zero on the volume — or omitted, in
which case `grow_mask` defaults it to an all-zero volume — the
short-circuit branch is never taken and `grow_mask` returns exactly the
mask of the variant with the auxiliary-segmentation branch removed:
every inclusion decision is made by the windowed z-score test alone. -/
theorem grow_mask_zero_ants (s : Shape) (anat : VolQ) (aseg ants : VolZ)
    (ww bw : ℕ) (zval : ℚ) (hz : ∀ p, inR s p = true → ants p = 0) :
    (growMask s anat aseg (some ants) ww zval bw).mask =
      growMaskVar s anat aseg ww zval bw ∧
    (growMask s anat aseg none ww zval bw).mask =
      growMaskVar s anat aseg ww zval bw := by
  constructor
  · show openingM s bw
      ((shellIndices s bw (refineAseg s 4 (collapse aseg))).foldl
        (growStep s ants (gmVol anat (collapse aseg)) anat ww zval)
        (refineAseg s 4 (collapse aseg))) = _
    rw [foldl_growStep_no_ants]
    · rfl
    · intro p hp
      rw [hz p (mem_shellIndices_inR hp)]
      decide
  · show openingM s bw
      ((shellIndices s bw (refineAseg s 4 (collapse aseg))).foldl
        (growStep s (fun _ => 0) (gmVol anat (collapse aseg)) anat ww zval)
        (refineAseg s 4 (collapse aseg))) = _
    rw [foldl_growStep_no_ants]
    · rfl
    · intro p _
      decide

/-- Witness for `grow_mask_zero_ants` on an explicitly all-zero auxiliary
segmentation over a 1×1×1 volume. -/
theorem grow_mask_zero_ants_w :
    (growMask (1, 1, 1) (fun _ => 1) (fun _ => 3) (some fun _ => 0)
        7 2 4).mask =
      growMaskVar (1, 1, 1) (fun _ => 1) (fun _ => 3) 7 2 4 :=
  (grow_mask_zero_ants (1, 1, 1) (fun _ => 1) (fun _ => 3) (fun _ => 0)
    7 4 2 (fun _ _ => rfl)).1

theorem ballOffsets_zero : ballOffsets 0 = [(0, 0, 0)] := by decide

theorem dilateM_zero {s : Shape} {m : Mask} {p : Pos} (hp : inR s p = true) :
    dilateM s 0 m p = m p := by
  unfold dilateM
  rw [ballOffsets_zero]
  simp [addP, hp]

theorem erodeM_zero {s : Shape} {m : Mask} {p : Pos} (hp : inR s p = true) :
    erodeM s 0 m p = m p := by
  unfold erodeM
  rw [ballOffsets_zero]
  simp [addP, hp]

/-- Claim C8: with `bw = 0` the ball is a single voxel, so the dilation
is the identity, the candidate shell is empty, the loop never runs, the
final opening is the identity on in-range voxels, and `grow_mask`
returns exactly `refine_aseg`'s mask of the same `aseg` (the hemisphere
collapse does not change the binarized mask). -/
theorem grow_mask_bw_zero (s : Shape) (anat : VolQ) (aseg : VolZ)
    (oants : Option VolZ) (ww : ℕ) (zval : ℚ) :
    growShell s aseg 0 = [] ∧
    maskEqOn s (growMask s anat aseg oants ww zval 0).mask
      (refineAseg s 4 aseg) := by
  have hshell : growShell s aseg 0 = [] := by
    unfold growShell shellIndices
    rw [List.filter_eq_nil_iff]
    intro p hp
    have hval : shellVal s 0 (refineAseg s 4 (collapse aseg)) p = 0 := by
      unfold shellVal
      rw [dilateM_zero (mem_allPositions hp)]
      rcases refineAseg s 4 (collapse aseg) p with _ | _ <;> decide
    rw [hval]
    decide
  refine ⟨hshell, ?_⟩
  have hmask : (growMask s anat aseg oants ww zval 0).mask =
      openingM s 0 (refineAseg s 4 (collapse aseg)) := by
    show openingM s 0
      ((shellIndices s 0 (refineAseg s 4 (collapse aseg))).foldl
        (growStep s (oants.getD fun _ => 0) (gmVol anat (collapse aseg))
          anat ww zval)
        (refineAseg s 4 (collapse aseg))) = _
    rw [show shellIndices s 0 (refineAseg s 4 (collapse aseg)) = [] from hshell]
    rfl
  rw [hmask, refineAseg_collapse]
  rw [maskEqOn_iff]
  intro p hp
  unfold openingM
  rw [dilateM_zero hp, erodeM_zero hp]

theorem growLoop_perm (s : Shape) (ants : VolZ) (g anat : VolQ) (ww : ℕ)
    (zval : ℚ) {l₁ l₂ : List Pos} (hperm : l₁.Perm l₂) (r : Mask) :
    l₁.foldl (growStep s ants g anat ww zval) r =
      l₂.foldl (growStep s ants g anat ww zval) r := by
  funext x
  rw [growLoop_at, growLoop_at]
  by_cases hx : x ∈ l₁ ∧ growWrites s ants g ww x = true
  · rw [if_pos hx, if_pos ⟨hperm.mem_iff.mp hx.1, hx.2⟩]
  · rw [if_neg hx, if_neg fun hc => hx ⟨hperm.mem_iff.mpr hc.1, hc.2⟩]

/-- Claim C9: the per-voxel loop of `grow_mask` reads only the
gray-matter template, the anatomical volume and the auxiliary
segmentation — never the mask being written — so evaluating the
candidate shell in any permuted order (followed by the final opening)
yields exactly the mask `grow_mask` returns. -/
theorem grow_loop_order_independent (s : Shape) (anat : VolQ)
    (aseg ants : VolZ) (ww bw : ℕ) (zval : ℚ) (l : List Pos)
    (hperm : l.Perm (growShell s aseg bw)) :
    openingM s bw (l.foldl
      (growStep s ants (gmVol anat (collapse aseg)) anat ww zval)
      (refineAseg s 4 (collapse aseg))) =
    (growMask s anat aseg (some ants) ww zval bw).mask := by
  rw [growLoop_perm s ants (gmVol anat (collapse aseg)) anat ww zval hperm]
  rfl

set_option maxRecDepth 1000000

/-- Witness for `grow_loop_order_independent`: a concrete 6×1×1 volume
whose candidate shell is the single voxel (1,0,0). -/
theorem grow_loop_order_independent_w :
    openingM shp611 1 (([((1 : ℤ), (0 : ℤ), (0 : ℤ))]).foldl
      (growStep shp611 (fun _ => 0) (gmVol anatC7 (collapse asegGM))
        anatC7 1 2)
      (refineAseg shp611 4 (collapse asegGM))) =
    (growMask shp611 anatC7 asegGM (some fun _ => 0) 1 2 1).mask :=
  grow_loop_order_independent shp611 anatC7 asegGM (fun _ => 0) 1 1 2
    [((1 : ℤ), (0 : ℤ), (0 : ℤ))] (by decide)

/-- Claim C5 (amended): the window read around a candidate voxel follows
Python slice semantics on each axis: it spans `p-ww` through `p+ww-1`
(the upper bound is exclusive, not `p+ww`), every index actually read is
strictly below the axis length (NumPy basic slicing never reads out of
bounds), a window reaching past the upper edge is clipped to a truncated
in-bounds window, and a window whose lower bound is negative has that
bound wrapped by the axis length, which (whenever `c+ww ≤ c-ww+n`)
leaves an empty window. -/
theorem window_slice_semantics :
    (∀ (n : ℕ) (c : ℤ) (ww : ℕ), ∀ i ∈ windowAxis n c ww, i < n) ∧
    (∀ (n : ℕ) (c : ℤ) (ww : ℕ), 0 ≤ c - ww → c + ww ≤ (n : ℤ) →
      windowAxis n c ww = List.range' (c - ww).toNat (2 * ww)) ∧
    (∀ (n : ℕ) (c : ℤ) (ww : ℕ), 0 ≤ c - ww → (n : ℤ) < c + ww →
      windowAxis n c ww = List.range' (c - ww).toNat (n - (c - ww).toNat)) ∧
    (∀ (n : ℕ) (c : ℤ) (ww : ℕ), c - ww < 0 → 0 ≤ c + ww →
      c + ww ≤ c - ww + n → windowAxis n c ww = []) := by
  refine ⟨?_, ?_, ?_, ?_⟩
  · intro n c ww i hi
    rw [windowAxis, sliceIdxs, List.mem_range'_1] at hi
    have h1 : resolveIdx n (c - ww) ≤ n := min_le_right _ _
    have h2 : resolveIdx n (c + ww) ≤ n := min_le_right _ _
    omega
  · intro n c ww h1 h2
    unfold windowAxis sliceIdxs resolveIdx
    rw [if_neg (by omega), if_neg (by omega)]
    congr 1 <;> omega
  · intro n c ww h1 h2
    unfold windowAxis sliceIdxs resolveIdx
    rw [if_neg (by omega), if_neg (by omega)]
    rcases le_or_lt (c - ww) (n : ℤ) with h3 | h3
    · congr 1 <;> omega
    · have hs : min (c - (ww : ℤ)).toNat n = n := by omega
      have he : min (c + (ww : ℤ)).toNat n = n := by omega
      have hz : n - (c - (ww : ℤ)).toNat = 0 := by omega
      rw [hs, he, hz]
      simp
  · intro n c ww h1 h2 h3
    unfold windowAxis sliceIdxs resolveIdx
    rw [if_pos (by omega), if_neg (by omega)]
    have hz : min (c + (ww : ℤ)).toNat n - min (c - ww + (n : ℤ)).toNat n = 0 := by
      omega
    rw [hz]
    simp

/-- Claim C5 counterexample: for a voxel at coordinate 10 with `ww = 7`
on an axis of length 20, index 17 = p+ww is not read (the slice is
exclusive at the top); and for a voxel at coordinate 8 on an axis of
length 10 the window is the truncated in-bounds index list 1..9 — the
bounds are clipped, not read out of range. -/
theorem window_slice_cx :
    (17 : ℕ) ∉ windowAxis 20 10 7 ∧
    windowAxis 10 8 7 = List.range' 1 9 ∧ windowAxis 10 8 7 ≠ [] := by
  decide

/-- Witness for `window_slice_semantics`: an interior window, an
upper-edge truncated window, a wrapped empty window, and an in-bounds
read. -/
theorem window_slice_semantics_w :
    (5 : ℕ) < 20 ∧
    windowAxis 20 10 7 = List.range' 3 14 ∧
    windowAxis 10 8 7 = List.range' 1 9 ∧
    windowAxis 20 2 7 = [] :=
  ⟨window_slice_semantics.1 20 10 7 5 (by decide),
   window_slice_semantics.2.1 20 10 7 (by decide) (by decide),
   window_slice_semantics.2.2.1 10 8 7 (by decide) (by decide),
   window_slice_semantics.2.2.2 20 2 7 (by decide) (by decide) (by decide)⟩

/-- Claim C4: `refine_aseg` applied to a binary (0/1) volume whose mask
is a fixed point of closing with the given ball and a fixed point of
hole filling returns that mask unchanged at every in-range voxel. -/
theorem refine_aseg_fixed (s : Shape) (r : ℕ) (v : VolZ)
    (hb : binaryOn s v)
    (hc : maskEqOn s (closingM s r (binMask v)) (binMask v))
    (hf : maskEqOn s (fillHoles s r (binMask v)) (binMask v)) :
    ∀ i < s.1, ∀ j < s.2.1, ∀ k < s.2.2,
      b2i (refineAseg s r v ((i : ℤ), (j : ℤ), (k : ℤ))) =
        v ((i : ℤ), (j : ℤ), (k : ℤ)) := by
  intro i hi j hj k hk
  have hinr : inR s ((i : ℤ), (j : ℤ), (k : ℤ)) = true := by
    rw [inR, decide_eq_true_eq]
    refine ⟨?_, ?_, ?_, ?_, ?_, ?_⟩ <;> simp <;> omega
  have h1 : refineAseg s r v = fillHoles s r (binMask v) := by
    unfold refineAseg
    exact fillHoles_congr (maskEqOn_iff.mp hc)
  have h2 : fillHoles s r (binMask v) ((i : ℤ), (j : ℤ), (k : ℤ)) =
      binMask v ((i : ℤ), (j : ℤ), (k : ℤ)) :=
    maskEqOn_iff.mp hf _ hinr
  rw [h1, h2]
  rcases hb i hi j hj k hk with h0 | h0 <;>
    · simp [binMask, bmaskVal, bmaskStep, b2i, h0]
      decide

/-- Witness for `refine_aseg_fixed`: the all-ones 1×1×1 volume is closed
and hole-free for the radius-1 ball, and `refine_aseg` keeps it. -/
theorem refine_aseg_fixed_w :
    b2i (refineAseg (1, 1, 1) 1 (fun _ => 1) ((0 : ℤ), (0 : ℤ), (0 : ℤ))) = 1 :=
  refine_aseg_fixed (1, 1, 1) 1 (fun _ => 1) (by decide) (by decide)
    (by decide) 0 (by decide) 0 (by decide) 0 (by decide)

/-- Claim C7 (amended): for every input there is a finite threshold (the
computable bound `zThreshold`) such that whenever `zval` exceeds it,
every candidate shell voxel that does not take the short-circuit branch
and whose gray-matter window contains at least one positive value is
marked included by the loop (before the final opening).  Candidates
whose window has no positive value are left unmarked regardless of
`zval`, and the final opening can still remove marked voxels, so the
original claim fails for the returned mask. -/
theorem grow_mask_large_zval (s : Shape) (anat : VolQ) (aseg ants : VolZ)
    (ww bw : ℕ) (zval : ℚ) (p : Pos)
    (hz : zThreshold s anat aseg ww bw < zval)
    (hp : p ∈ growShell s aseg bw)
    (ha : ants p ≠ 2)
    (hw : windowPos s (gmVol anat (collapse aseg)) p ww ≠ []) :
    (growShell s aseg bw).foldl
      (growStep s ants (gmVol anat (collapse aseg)) anat ww zval)
      (refineAseg s 4 (collapse aseg)) p = true := by
  rw [growLoop_at]
  have hemp : (windowPos s (gmVol anat (collapse aseg)) p ww).isEmpty = false :=
    List.isEmpty_eq_false.mpr hw
  have hwr : growWrites s ants (gmVol anat (collapse aseg)) ww p = true := by
    unfold growWrites
    rw [hemp]
    simp
  rw [if_pos ⟨hp, hwr⟩]
  unfold growVal
  rw [if_neg ha]
  unfold ztestB
  rw [Bool.and_eq_true, decide_eq_true_eq, decide_eq_true_eq]
  have hZ1 : (1 : ℚ) ≤ zThreshold s anat aseg ww bw := foldr_max_init _ _ _
  have hzpos : (0 : ℚ) < zval := by linarith
  refine ⟨hzpos, ?_⟩
  have hsc : scoreQ s (gmVol anat (collapse aseg)) anat ww p ≤
      zThreshold s anat aseg ww bw :=
    foldr_max_mem _ _ hp
  have hmaxpos : (0 : ℚ) <
      max (qvar (windowPos s (gmVol anat (collapse aseg)) p ww)) varFloor :=
    lt_of_lt_of_le (by norm_num [varFloor]) (le_max_right _ _)
  have hscval : scoreQ s (gmVol anat (collapse aseg)) anat ww p =
      (anat p - qmean (windowPos s (gmVol anat (collapse aseg)) p ww)) ^ 2 /
        max (qvar (windowPos s (gmVol anat (collapse aseg)) p ww)) varFloor := by
    simp only [scoreQ]
    rw [hemp]
    simp
  rw [hscval] at hsc
  have hd : (anat p - qmean (windowPos s (gmVol anat (collapse aseg)) p ww)) ^ 2 ≤
      zThreshold s anat aseg ww bw *
        max (qvar (windowPos s (gmVol anat (collapse aseg)) p ww)) varFloor :=
    (div_le_iff₀ hmaxpos).mp hsc
  have hz2 : zThreshold s anat aseg ww bw < zval ^ 2 := by nlinarith
  calc (anat p - qmean (windowPos s (gmVol anat (collapse aseg)) p ww)) ^ 2
      ≤ zThreshold s anat aseg ww bw *
          max (qvar (windowPos s (gmVol anat (collapse aseg)) p ww)) varFloor := hd
    _ < zval ^ 2 *
          max (qvar (windowPos s (gmVol anat (collapse aseg)) p ww)) varFloor :=
        mul_lt_mul_of_pos_right hz2 hmaxpos

/-- Witness for `grow_mask_large_zval`: on the 6×1×1 scenario with a
gray-matter voxel at the origin, the candidate (1,0,0) has the window
`[5, 0]` and squared z-statistic 0, and is marked for `zval = 2 >
zThreshold = 1`. -/
theorem grow_mask_large_zval_w :
    (growShell shp611 asegGM 1).foldl
      (growStep shp611 (fun _ => 0) (gmVol anatC7 (collapse asegGM))
        anatC7 1 2)
      (refineAseg shp611 4 (collapse asegGM)) ((1 : ℤ), (0 : ℤ), (0 : ℤ)) =
      true :=
  grow_mask_large_zval shp611 anatC7 asegGM (fun _ => 0) 1 1 2
    ((1 : ℤ), (0 : ℤ), (0 : ℤ)) (by with_unfolding_all decide) (by decide)
    (by decide) (by with_unfolding_all decide)

/-- Claim C7 counterexample: with `zval = 1000`, the candidate shell
voxel (1,0,0) of the 6×1×1 scenario has positive anatomical intensity 5
but is not included in the mask `grow_mask` returns (its gray-matter
window is all zero, so it is never marked, and the final opening keeps
it off). -/
theorem grow_mask_large_zval_cx :
    (growMask shp611 anatC7 asegLbl1 none 1 1000 1).mask
      ((1 : ℤ), (0 : ℤ), (0 : ℤ)) = false ∧
    ((1 : ℤ), (0 : ℤ), (0 : ℤ)) ∈ growShell shp611 asegLbl1 1 ∧
    (0 : ℚ) < anatC7 ((1 : ℤ), (0 : ℤ), (0 : ℤ)) :=
  ⟨by decide, by decide, by decide⟩
